import Mathlib

/-!
Verification of the LogicEval compiler pipeline (lexer → parser → IR
generator → peephole optimizer → interpreter) against its specification.

The Python source is shallowly embedded: each Python method becomes a Lean
function over explicit state.  Python strings are Lean `String`s; Python
`str.split()` (whitespace splitting), `str.startswith`, `str.strip(';')`,
`str.isalpha`, `'=' in line`, and `" | ".join` are modelled by the helper
functions below.  Python `dict`s keyed by strings are association lists with
overwrite-on-update semantics (`dSet` / `dGet`).
-/

namespace LogicEval

/-! ### Python string helpers -/

/-- Helper for `pySplit`: walks the character list, accumulating the current
word (reversed) in `acc`, emitting a word at each whitespace run. -/
def pySplitAux : List Char → List Char → List String
  | [], acc => if acc.isEmpty then [] else [String.mk acc.reverse]
  | c :: cs, acc =>
    if c.isWhitespace then
      if acc.isEmpty then pySplitAux cs []
      else String.mk acc.reverse :: pySplitAux cs []
    else pySplitAux cs (c :: acc)

/-- Python `str.split()` with no argument: split on runs of whitespace,
discarding empty pieces. -/
def pySplit (s : String) : List String := pySplitAux s.data []

/-- Python `s.startswith(pre)`. -/
def strStartsWith (s pre : String) : Bool := pre.data.isPrefixOf s.data

/-- Python `c in s` for a single character `c`. -/
def strContains (s : String) (c : Char) : Bool := s.data.contains c

/-- Python `s.isalpha()`: non-empty and every character alphabetic. -/
def pyIsAlpha (s : String) : Bool := !s.data.isEmpty && s.data.all Char.isAlpha

/-- Python `s.strip(';')`: remove leading and trailing `';'` characters. -/
def stripSemi (s : String) : String :=
  String.mk (((s.data.dropWhile (· = ';')).reverse.dropWhile (· = ';')).reverse)

/-- Python `sep.join(l)`. -/
def joinSep (sep : String) : List String → String
  | [] => ""
  | [x] => x
  | x :: y :: xs => x ++ sep ++ joinSep sep (y :: xs)

/-- Python `str(n)` for the natural numbers used as boolean values. -/
def natStr (n : Nat) : String := toString n

/-! ### Python dicts as association lists -/

/-- `m[k] = v` on a Python dict: overwrite the existing binding or append. -/
def dSet {α : Type} (m : List (String × α)) (k : String) (v : α) :
    List (String × α) :=
  if m.any (fun p => p.1 == k) then
    m.map (fun p => if p.1 == k then (k, v) else p)
  else m ++ [(k, v)]

/-- `m.get(k)` on a Python dict. -/
def dGet {α : Type} (m : List (String × α)) (k : String) : Option α :=
  (m.find? (fun p => p.1 == k)).map Prod.snd

/-- `m.update(l)` on a Python dict: later bindings overwrite earlier ones. -/
def dUpdate {α : Type} (m l : List (String × α)) : List (String × α) :=
  l.foldl (fun acc p => dSet acc p.1 p.2) m

/-! ### Optimizer (`src/optimizer.py`, `Optimizer.optimize`)

The Python pass appends exactly one output line per input line (every branch
either `continue`s after an append or falls through to `append(line)`), so it
is embedded as a per-line function mapped over the input. -/

/-- The rewriting decisions of one iteration of the `for line in code` loop
of `Optimizer.optimize`, over the already-split token list (Python's local
names are inlined: `res` is `parts.getD 0 ""`, `op` is `parts.getD 2 ""`,
`arg1` is `parts.getD 3 ""`, `arg2` is `parts.getD 4 ""`); each
`append`+`continue` becomes a return. -/
def optRewrite (parts : List String) (line : String) : String :=
  if 5 ≤ parts.length && parts.getD 1 "" == "=" then
    if parts.getD 2 "" == "NOT" && parts.getD 3 "" == "0" then
      parts.getD 0 "" ++ " = 1"
    else if parts.getD 2 "" == "NOT" && parts.getD 3 "" == "1" then
      parts.getD 0 "" ++ " = 0"
    else if parts.length == 5 then
      if parts.getD 2 "" == "AND" then
        if parts.getD 3 "" == "0" || parts.getD 4 "" == "0" then
          parts.getD 0 "" ++ " = 0"
        else if parts.getD 3 "" == "1" && parts.getD 4 "" == "1" then
          parts.getD 0 "" ++ " = 1"
        else if parts.getD 3 "" == "1" then
          parts.getD 0 "" ++ " = " ++ parts.getD 4 ""
        else if parts.getD 4 "" == "1" then
          parts.getD 0 "" ++ " = " ++ parts.getD 3 ""
        else line
      else if parts.getD 2 "" == "OR" then
        if parts.getD 3 "" == "1" || parts.getD 4 "" == "1" then
          parts.getD 0 "" ++ " = 1"
        else if parts.getD 3 "" == "0" && parts.getD 4 "" == "0" then
          parts.getD 0 "" ++ " = 0"
        else if parts.getD 3 "" == "0" then
          parts.getD 0 "" ++ " = " ++ parts.getD 4 ""
        else if parts.getD 4 "" == "0" then
          parts.getD 0 "" ++ " = " ++ parts.getD 3 ""
        else line
      else if parts.getD 2 "" == "XOR" then
        if parts.getD 3 "" == "0" && parts.getD 4 "" == "0" then
          parts.getD 0 "" ++ " = 0"
        else if parts.getD 3 "" == "1" && parts.getD 4 "" == "1" then
          parts.getD 0 "" ++ " = 0"
        else if (parts.getD 3 "" == "0" && parts.getD 4 "" == "1")
            || (parts.getD 3 "" == "1" && parts.getD 4 "" == "0") then
          parts.getD 0 "" ++ " = 1"
        else if parts.getD 3 "" == "0" then
          parts.getD 0 "" ++ " = " ++ parts.getD 4 ""
        else if parts.getD 4 "" == "0" then
          parts.getD 0 "" ++ " = " ++ parts.getD 3 ""
        else line
      else line
    else line
  else line

/-- One iteration of the `for line in code` loop of `Optimizer.optimize`. -/
def optLine (line : String) : String := optRewrite (pySplit line) line

/-- `Optimizer.optimize`. -/
def optimize (code : List String) : List String := code.map optLine

/-! ### Interpreter (`src/interpreter.py`, class `Interpreter`)

`self.variables`, `self.last_ir` and `self.saved_code` become the fields of
`Interp` (`self.rules` is never read or written by any method and is
omitted).  `print` calls are collected into an output list returned next to
the state.  Lines are executed with Python's out-of-range indexing totalised
by `getD _ ""`; every line the pipeline produces is well-formed, so the
defaults are never reached on pipeline-generated blocks. -/

/-- The five logic operator names of the 3AC instruction set. -/
def isOp (w : String) : Bool :=
  w == "AND" || w == "OR" || w == "NOT" || w == "IMPLIES" || w == "XOR"

/-- Session state of `Interpreter`; `vars` embeds `self.variables` (that
Python name is a reserved word in Lean). -/
structure Interp where
  vars : List (String × Nat)
  last_ir : List String
  saved_code : List (String × List String)
deriving Repr, DecidableEq

/-- A fresh `Interpreter()`. -/
def initInterp : Interp := ⟨[], [], []⟩

/-- Working state of one `Interpreter.run_code` call: the session-global
`self.variables` next to the call-local `context`, `temps` and
`last_result`. -/
structure RunState where
  globals : List (String × Nat)
  context : List (String × Nat)
  temps : List (String × Nat)
  result : Nat
deriving Repr, DecidableEq

/-- `Interpreter.get_val`. -/
def get_val (operand : String) (context temps : List (String × Nat)) : Nat :=
  if operand == "0" then 0
  else if operand == "1" then 1
  else
    match dGet temps operand with
    | some v => v
    | none =>
      match dGet context operand with
      | some v => v
      | none => 0

/-- The `val` computed for one assignment line of `Interpreter.run_code`
(the operator dispatch on `parts[2]`; the final branch is the plain
assignment `target = value-or-name`). -/
def evalParts (s : RunState) (parts : List String) : Nat :=
  if parts.getD 2 "" == "AND" then
    if get_val (parts.getD 3 "") s.context s.temps == 1
        && get_val (parts.getD 4 "") s.context s.temps == 1 then 1 else 0
  else if parts.getD 2 "" == "OR" then
    if get_val (parts.getD 3 "") s.context s.temps == 1
        || get_val (parts.getD 4 "") s.context s.temps == 1 then 1 else 0
  else if parts.getD 2 "" == "IMPLIES" then
    if get_val (parts.getD 3 "") s.context s.temps == 0
        || get_val (parts.getD 4 "") s.context s.temps == 1 then 1 else 0
  else if parts.getD 2 "" == "XOR" then
    if get_val (parts.getD 3 "") s.context s.temps
        != get_val (parts.getD 4 "") s.context s.temps then 1 else 0
  else if parts.getD 2 "" == "NOT" then
    if get_val (parts.getD 3 "") s.context s.temps == 0 then 1 else 0
  else get_val (parts.getD 2 "") s.context s.temps

/-- The body of the `for line in code` loop of `Interpreter.run_code`, over
the token list: command tokens are skipped, assignment lines compute `val`
and store it — temporary targets into the block-local `temps`, others
written through to the globals (and the working context). -/
def runParts (s : RunState) (parts : List String) : RunState :=
  if parts.isEmpty then s
  else if parts.getD 0 "" == "TABLE" || parts.getD 0 "" == "EVAL"
      || parts.getD 0 "" == "INFER" then s
  else if 3 ≤ parts.length && parts.getD 1 "" == "=" then
    if strStartsWith (parts.getD 0 "") "t" then
      { s with temps := dSet s.temps (parts.getD 0 "") (evalParts s parts),
               result := evalParts s parts }
    else
      { s with globals := dSet s.globals (parts.getD 0 "") (evalParts s parts),
               context := dSet s.context (parts.getD 0 "") (evalParts s parts),
               result := evalParts s parts }
  else s

/-- The body of the `for line in code` loop of `Interpreter.run_code`. -/
def runLine (s : RunState) (line : String) : RunState := runParts s (pySplit line)

/-- `Interpreter.run_code(code, local_vars)`: the working context starts as a
copy of the globals overlaid with the local overrides. -/
def runCode (globals : List (String × Nat)) (code : List String)
    (localVars : List (String × Nat)) : RunState :=
  code.foldl runLine
    { globals := globals, context := dUpdate globals localVars,
      temps := [], result := 0 }

/-- One iteration of the classification loop at the top of
`Interpreter.execute`, over the already-split token list: `is_expr` becomes
`true` when the line mentions an operator name or its first token begins
with `'t'`, and a non-temporary assignment with non-literal right-hand side
additionally records its target in `output_vars` (forcing `is_expr`). -/
def classifyParts (acc : Bool × List String) (parts : List String) :
    Bool × List String :=
  if parts.isEmpty then acc
  else
    if 3 ≤ parts.length && parts.getD 1 "" == "="
        && !strStartsWith (parts.getD 0 "") "t"
        && parts.getD 2 "" != "0" && parts.getD 2 "" != "1" then
      (true, acc.2 ++ [parts.getD 0 ""])
    else (acc.1 || parts.any isOp || strStartsWith (parts.getD 0 "") "t", acc.2)

/-- One iteration of the classification loop of `Interpreter.execute`. -/
def classifyLine (acc : Bool × List String) (line : String) : Bool × List String :=
  classifyParts acc (pySplit line)

/-- `is_expr` and `output_vars` for a whole block. -/
def classify (code : List String) : Bool × List String :=
  code.foldl classifyLine (false, [])

/-- `Interpreter.handle_eval`. -/
def handle_eval (st : Interp) : Interp × List String :=
  if st.last_ir.isEmpty then (st, ["No expression to evaluate."])
  else
    let r := runCode st.vars st.last_ir []
    ({ st with vars := r.globals }, [natStr r.result])

/-- `Interpreter.handle_infer`. -/
def handle_infer (st : Interp) (line : String) : Interp × List String :=
  let parts := pySplit line
  let rules := parts.drop 1
  (st, ("Inferring from rules: " ++ joinSep ", " rules) ::
    rules.map (fun r =>
      r ++ ": " ++ match dGet st.vars r with
                   | some v => natStr v
                   | none => "Undefined"))

/-- One right-hand-side operand considered by the `input_vars` collection of
`Interpreter.handle_table`: an alphabetic token that is neither an operator
name nor `t`-initial joins the set (the Python `set` is a deduplicated
list; its iteration order is irrelevant because the result is sorted). -/
def inputVarsStep (a : List String) (op : String) : List String :=
  if pyIsAlpha op && !isOp op && !strStartsWith op "t" && !a.contains op then
    a ++ [op]
  else a

/-- The `input_vars` collection for one line's token list: scan the tokens
from index 2 on of every assignment line. -/
def inputVarsParts (acc : List String) (parts : List String) : List String :=
  if 3 ≤ parts.length && parts.getD 1 "" == "=" then
    (parts.drop 2).foldl inputVarsStep acc
  else acc

/-- The `input_vars` collection loop of `Interpreter.handle_table`, per
line. -/
def inputVarsLine (acc : List String) (line : String) : List String :=
  inputVarsParts acc (pySplit line)

/-- All distinct input variables of a block (unsorted). -/
def inputVars (tc : List String) : List String := tc.foldl inputVarsLine []

/-- Python string comparison on char lists: lexicographic by code point. -/
def charListLe : List Char → List Char → Bool
  | [], _ => true
  | _ :: _, [] => false
  | a :: as, b :: bs =>
    if a.toNat = b.toNat then charListLe as bs else decide (a.toNat < b.toNat)

/-- Python `a <= b` on strings (lexicographic by code point). -/
def strLeB (a b : String) : Bool := charListLe a.data b.data

/-- Insert a string into a `strLeB`-sorted list (Python's `sorted` is a
comparison sort; insertion sort gives the same sorted result). -/
def insertStr (x : String) : List String → List String
  | [] => [x]
  | y :: ys => if strLeB x y then x :: y :: ys else y :: insertStr x ys

/-- Python `sorted(l)` for strings. -/
def sortStrs (l : List String) : List String := l.foldr insertStr []

/-- `sorted_vars = sorted(list(input_vars))` of `handle_table`. -/
def sortedVarsOf (tc : List String) : List String := sortStrs (inputVars tc)

/-- `itertools.product([0, 1], repeat=n)`: all `n`-tuples over `{0,1}` in
ascending binary counting order, first coordinate most significant. -/
def prodBits : Nat → List (List Nat)
  | 0 => [[]]
  | n + 1 => ((prodBits n).map (0 :: ·)) ++ ((prodBits n).map (1 :: ·))

/-- The body of the row loop of `Interpreter.handle_table`: run the block
under the row's local bindings (mutating the globals through `run_code`'s
write-through) and print the row. -/
def tableStep (tc : List String) (sv : List String)
    (acc : Interp × List String) (values : List Nat) : Interp × List String :=
  let r := runCode acc.1.vars tc (sv.zip values)
  ({ acc.1 with vars := r.globals },
   acc.2 ++ [joinSep " | " (values.map natStr) ++ " | " ++ natStr r.result])

/-- The table-printing part of `Interpreter.handle_table`, after the target
block has been resolved. -/
def tableRun (st : Interp) (tc : List String) : Interp × List String :=
  let sv := sortedVarsOf tc
  if sv.isEmpty then (st, ["No variables to generate table for."])
  else
    let header := joinSep " | " sv ++ " | Result"
    let hr := (prodBits sv.length).foldl (tableStep tc sv) (st, [])
    (hr.1, header :: String.mk (List.replicate header.length '-') :: hr.2)

/-- The `target_id` computed at the top of `Interpreter.handle_table`:
`parts[1].strip(';')` when a second token exists, with the `LAST_EXPR`
sentinel mapped back to `None`. -/
def tableTargetId (tableCmd : String) : Option String :=
  let parts := pySplit tableCmd
  if 2 ≤ parts.length then
    let tid := stripSemi (parts.getD 1 "")
    if tid == "LAST_EXPR" then none else some tid
  else none

/-- `Interpreter.handle_table`: resolve the target block, then print the
table. -/
def handle_table (st : Interp) (code : List String) (tableCmd : String) :
    Interp × List String :=
  match tableTargetId tableCmd with
  | some tid =>
    match dGet st.saved_code tid with
    | some tc => tableRun st tc
    | none => (st, ["Error: Unknown rule or expression '" ++ tid ++ "'"])
  | none =>
    if !code.any (fun l => strContains l '=') && !st.last_ir.isEmpty then
      tableRun st st.last_ir
    else tableRun st code

/-- The cache-update step of `Interpreter.execute`: when the block is
classified as an expression, it becomes `last_ir` and is saved under every
collected output variable. -/
def cacheUpdate (st : Interp) (code : List String) : Interp :=
  let c := classify code
  if c.1 then
    { st with last_ir := code,
              saved_code := c.2.foldl (fun m v => dSet m v code) st.saved_code }
  else st

/-- `Interpreter.execute`: classification, cache update, then dispatch. -/
def executeCore (st : Interp) (code : List String) : Interp × List String :=
  let st1 := cacheUpdate st code
  match code.find? (fun l => strStartsWith l "TABLE" || strStartsWith l "EVAL") with
  | some l =>
    if strStartsWith l "TABLE" then handle_table st1 code l else handle_eval st1
  | none =>
    let r := runCode st1.vars code []
    let st2 := { st1 with vars := r.globals }
    match code.find? (fun l => strStartsWith l "INFER") with
    | some l => handle_infer st2 l
    | none => (st2, [])

/-! ### AST (`src/ast_nodes.py`) and IR generator (`src/ir_generator.py`) -/

/-- `Expr` nodes of `ast_nodes.py`: `BinaryOp`, `UnaryOp`, `Literal`, `Var`.
Operator strings are kept as in the source (`'&'`, `'|'`, `'->'`, `'xor'`;
`'!'` for the unary node). -/
inductive Expr where
  | binary (left : Expr) (op : String) (right : Expr)
  | unary (op : String) (operand : Expr)
  | literal (value : Bool)
  | evar (name : String)
deriving Repr, DecidableEq

/-- `Stmt` nodes of `ast_nodes.py`. -/
inductive Stmt where
  | exprStmt (expr : Expr) (name : Option String)
  | setStmt (name : String) (value : Bool)
  | tableStmt (targetId : Option String)
  | evalStmt
  | ruleStmt (name : String) (expr : Expr)
  | inferStmt (ruleNames : List String)
deriving Repr, DecidableEq

/-- Mutable state of an `IRGenerator` instance. -/
structure IRGen where
  temp_counter : Nat
  code : List String
deriving Repr, DecidableEq

/-- `IRGenerator.new_temp`: increments the counter and returns `t<counter>`. -/
def new_temp (g : IRGen) : IRGen × String :=
  let c := g.temp_counter + 1
  ({ g with temp_counter := c }, "t" ++ natStr c)

/-- The `op_map` dict of `visit_expression` (`''` stands for the `KeyError`
a key outside the dict would raise; the parser only produces the four keys). -/
def opMap (op : String) : String :=
  if op == "&" then "AND"
  else if op == "|" then "OR"
  else if op == "->" then "IMPLIES"
  else if op == "xor" then "XOR"
  else ""

/-- `IRGenerator.visit_expression`: post-order lowering returning the operand
name (a temp, a literal, or a variable name). -/
def visitExpression : IRGen → Expr → IRGen × String
  | g, .binary l op r =>
    let (g1, ls) := visitExpression g l
    let (g2, rs) := visitExpression g1 r
    let (g3, t) := new_temp g2
    ({ g3 with code := g3.code ++ [t ++ " = " ++ opMap op ++ " " ++ ls ++ " " ++ rs] }, t)
  | g, .unary _ e =>
    let (g1, os) := visitExpression g e
    let (g2, t) := new_temp g1
    ({ g2 with code := g2.code ++ [t ++ " = NOT " ++ os] }, t)
  | g, .literal v => (g, if v then "1" else "0")
  | g, .evar n => (g, n)

/-- `IRGenerator.visit` dispatched over `Stmt` (the closed variant set makes
`generic_visit` unreachable). -/
def visitStmt : IRGen → Stmt → IRGen
  | g, .exprStmt e name =>
    let (g1, result) := visitExpression g e
    let g2 :=
      match name with
      | some n => if n.isEmpty then g1 else { g1 with code := g1.code ++ [n ++ " = " ++ result] }
      | none => g1
    if g2.code.isEmpty then { g2 with code := ["t_res = " ++ result] } else g2
  | g, .setStmt n v => { g with code := g.code ++ [n ++ " = " ++ (if v then "1" else "0")] }
  | g, .tableStmt tid => { g with code := g.code ++ ["TABLE " ++ tid.getD "LAST_EXPR"] }
  | g, .evalStmt => { g with code := g.code ++ ["EVAL"] }
  | g, .ruleStmt n e =>
    let (g1, result) := visitExpression g e
    { g1 with code := g1.code ++ [n ++ " = " ++ result] }
  | g, .inferStmt names => { g with code := g.code ++ ["INFER " ++ joinSep " " names] }

/-- `IRGenerator.generate`: clears `self.code`, visits the node, and returns
the emitted block.  Note that `self.temp_counter` is *not* cleared. -/
def generate (g : IRGen) (s : Stmt) : IRGen × List String :=
  let g1 := visitStmt { g with code := [] } s
  (g1, g1.code)

/-- Number of operator nodes in an expression (one temp is allocated per
operator node during lowering). -/
def exprOps : Expr → Nat
  | .binary l _ r => exprOps l + exprOps r + 1
  | .unary _ e => exprOps e + 1
  | .literal _ => 0
  | .evar _ => 0

/-- Number of temporaries a statement's lowering allocates. -/
def stmtOps : Stmt → Nat
  | .exprStmt e _ => exprOps e
  | .ruleStmt _ e => exprOps e
  | _ => 0

/-! ### Spec-side definitions and helpers used by the theorems -/

/-- A key lookup test on a Python dict. -/
def hasKey {α : Type} (m : List (String × α)) (k : String) : Bool :=
  m.any (fun p => p.1 == k)

/-- Boolean value encoding used by the interpreter: `1` for true, `0` for
false. -/
def bv (x : Bool) : Nat := if x then 1 else 0

/-- The `n`-bit big-endian binary digits of `k` (most significant first). -/
def natBits : Nat → Nat → List Nat
  | 0, _ => []
  | n + 1, k => (k / 2 ^ n) :: natBits n (k % 2 ^ n)

/-- Stated from the spec's wording of "meaningful", over one line's token
list: the instruction uses a logic operator name, or assigns to a temporary,
or is a plain assignment to a non-temporary name whose right-hand side is
not the bare literal `0`/`1`.  To be compared with the code's `classify`. -/
def meaningfulParts (parts : List String) : Bool :=
  parts.any isOp
  || (2 ≤ parts.length && parts.getD 1 "" == "="
      && strStartsWith (parts.getD 0 "") "t")
  || (3 ≤ parts.length && parts.getD 1 "" == "="
      && !strStartsWith (parts.getD 0 "") "t"
      && parts.getD 2 "" != "0" && parts.getD 2 "" != "1")

/-- Stated from the spec's wording of "meaningful", per line. -/
def meaningfulLine (line : String) : Bool := meaningfulParts (pySplit line)

/-- Stated from the spec's wording: a block is "meaningful" when some line
is. -/
def meaningfulSpec (code : List String) : Bool := code.any meaningfulLine

/-- One token list's contribution to `execute`'s `is_expr` flag, read off
`classifyParts` (used to characterise the fold). -/
def partsExpr (parts : List String) : Bool :=
  !parts.isEmpty
    && (parts.any isOp || strStartsWith (parts.getD 0 "") "t"
      || (3 ≤ parts.length && parts.getD 1 "" == "="
          && !strStartsWith (parts.getD 0 "") "t"
          && parts.getD 2 "" != "0" && parts.getD 2 "" != "1"))

/-- One line's contribution to `execute`'s `is_expr` flag. -/
def lineExpr (line : String) : Bool := partsExpr (pySplit line)

/-- The target of a plain assignment to a non-temporary name whose
right-hand side is not a bare literal, over a token list. -/
def namedTargetParts (parts : List String) : Option String :=
  if 3 ≤ parts.length && parts.getD 1 "" == "="
      && !strStartsWith (parts.getD 0 "") "t"
      && parts.getD 2 "" != "0" && parts.getD 2 "" != "1" then
    some (parts.getD 0 "")
  else none

/-- The target of a plain assignment to a non-temporary name whose
right-hand side is not a bare literal (the lines whose targets `execute`
saves in `saved_code`), `none` otherwise. -/
def namedTarget (line : String) : Option String := namedTargetParts (pySplit line)

/-- A block is well-formed when every line whose first token begins with
`'t'` is an assignment line (`tok = ...`); every block the IR generator
emits satisfies this. -/
def wfBlock (code : List String) : Bool :=
  code.all fun line =>
    !strStartsWith ((pySplit line).getD 0 "") "t"
    || (decide (2 ≤ (pySplit line).length) && (pySplit line).getD 1 "" == "=")

/-- The statement `expr A & B;` as parsed by the parser. -/
def demoStmt : Stmt := .exprStmt (.binary (.evar "A") "&" (.evar "B")) none

/-- A fresh `IRGenerator()`. -/
def irg0 : IRGen := ⟨0, []⟩

/-- A small concrete session state used by witnesses: `A = 1` was set, the
block of `expr A & B;` is cached, and the rule block of `R` is saved. -/
def demoState : Interp :=
  ⟨[("A", 1)], ["t1 = AND A B"], [("R", ["t1 = OR A B", "R = t1"])]⟩

/-- A Python exception, as seen by the caller of `Interpreter.execute`. -/
structure PyError where
  kind : String
  msg : String
deriving Repr, DecidableEq

/-- `Interpreter.execute` with its error channel made explicit: a Python
`raise` would become `.error`, but `interpreter.py` contains no `raise`
statement on any path, so every path returns `.ok`. -/
def execute (st : Interp) (code : List String) :
    Except PyError (Interp × List String) :=
  .ok (executeCore st code)

/-! ## Theorems -/

/-! ### Helper lemmas about the embedding -/

theorem strStartsWith_TABLE (id : String) :
    strStartsWith ("TABLE " ++ id) "TABLE" = true := by
  simp only [strStartsWith, String.data_append, List.isPrefixOf_iff_prefix]
  exact List.IsPrefix.trans (by decide) (List.prefix_append _ _)

theorem optRewrite_cases (parts : List String) (line : String) :
    optRewrite parts line = line
    ∨ ∃ rhs, optRewrite parts line = parts.getD 0 "" ++ " = " ++ rhs
        ∧ parts.getD 1 "" = "=" := by
  have key : ∀ x, optRewrite parts line = x →
      x = line ∨ ∃ rhs, x = parts.getD 0 "" ++ " = " ++ rhs
        ∧ parts.getD 1 "" = "=" := by
    intro x hx
    unfold optRewrite at hx
    by_cases h : (decide (5 ≤ parts.length) && parts.getD 1 "" == "=") = true
    · have h2 : parts.getD 1 "" = "=" := by
        have := (Bool.and_eq_true _ _).mp h
        simpa [beq_iff_eq] using this.2
      rw [if_pos h] at hx
      by_cases c1 : (parts.getD 2 "" == "NOT" && parts.getD 3 "" == "0") = true
      · rw [if_pos c1] at hx; subst hx
        exact Or.inr ⟨"1", (String.append_assoc _ " = " "1").symm, h2⟩
      rw [if_neg c1] at hx
      by_cases c2 : (parts.getD 2 "" == "NOT" && parts.getD 3 "" == "1") = true
      · rw [if_pos c2] at hx; subst hx
        exact Or.inr ⟨"0", (String.append_assoc _ " = " "0").symm, h2⟩
      rw [if_neg c2] at hx
      by_cases c3 : (parts.length == 5) = true
      case neg => rw [if_neg c3] at hx; subst hx; exact Or.inl rfl
      rw [if_pos c3] at hx
      by_cases c4 : (parts.getD 2 "" == "AND") = true
      · rw [if_pos c4] at hx
        by_cases c5 : (parts.getD 3 "" == "0" || parts.getD 4 "" == "0") = true
        · rw [if_pos c5] at hx; subst hx
          exact Or.inr ⟨"0", (String.append_assoc _ " = " "0").symm, h2⟩
        rw [if_neg c5] at hx
        by_cases c6 : (parts.getD 3 "" == "1" && parts.getD 4 "" == "1") = true
        · rw [if_pos c6] at hx; subst hx
          exact Or.inr ⟨"1", (String.append_assoc _ " = " "1").symm, h2⟩
        rw [if_neg c6] at hx
        by_cases c7 : (parts.getD 3 "" == "1") = true
        · rw [if_pos c7] at hx; subst hx; exact Or.inr ⟨_, rfl, h2⟩
        rw [if_neg c7] at hx
        by_cases c8 : (parts.getD 4 "" == "1") = true
        · rw [if_pos c8] at hx; subst hx; exact Or.inr ⟨_, rfl, h2⟩
        rw [if_neg c8] at hx; subst hx; exact Or.inl rfl
      rw [if_neg c4] at hx
      by_cases c9 : (parts.getD 2 "" == "OR") = true
      · rw [if_pos c9] at hx
        by_cases c10 : (parts.getD 3 "" == "1" || parts.getD 4 "" == "1") = true
        · rw [if_pos c10] at hx; subst hx
          exact Or.inr ⟨"1", (String.append_assoc _ " = " "1").symm, h2⟩
        rw [if_neg c10] at hx
        by_cases c11 : (parts.getD 3 "" == "0" && parts.getD 4 "" == "0") = true
        · rw [if_pos c11] at hx; subst hx
          exact Or.inr ⟨"0", (String.append_assoc _ " = " "0").symm, h2⟩
        rw [if_neg c11] at hx
        by_cases c12 : (parts.getD 3 "" == "0") = true
        · rw [if_pos c12] at hx; subst hx; exact Or.inr ⟨_, rfl, h2⟩
        rw [if_neg c12] at hx
        by_cases c13 : (parts.getD 4 "" == "0") = true
        · rw [if_pos c13] at hx; subst hx; exact Or.inr ⟨_, rfl, h2⟩
        rw [if_neg c13] at hx; subst hx; exact Or.inl rfl
      rw [if_neg c9] at hx
      by_cases c14 : (parts.getD 2 "" == "XOR") = true
      · rw [if_pos c14] at hx
        by_cases c15 : (parts.getD 3 "" == "0" && parts.getD 4 "" == "0") = true
        · rw [if_pos c15] at hx; subst hx
          exact Or.inr ⟨"0", (String.append_assoc _ " = " "0").symm, h2⟩
        rw [if_neg c15] at hx
        by_cases c16 : (parts.getD 3 "" == "1" && parts.getD 4 "" == "1") = true
        · rw [if_pos c16] at hx; subst hx
          exact Or.inr ⟨"0", (String.append_assoc _ " = " "0").symm, h2⟩
        rw [if_neg c16] at hx
        by_cases c17 : (parts.getD 3 "" == "0" && parts.getD 4 "" == "1"
            || parts.getD 3 "" == "1" && parts.getD 4 "" == "0") = true
        · rw [if_pos c17] at hx; subst hx
          exact Or.inr ⟨"1", (String.append_assoc _ " = " "1").symm, h2⟩
        rw [if_neg c17] at hx
        by_cases c18 : (parts.getD 3 "" == "0") = true
        · rw [if_pos c18] at hx; subst hx; exact Or.inr ⟨_, rfl, h2⟩
        rw [if_neg c18] at hx
        by_cases c19 : (parts.getD 4 "" == "0") = true
        · rw [if_pos c19] at hx; subst hx; exact Or.inr ⟨_, rfl, h2⟩
        rw [if_neg c19] at hx; subst hx; exact Or.inl rfl
      rw [if_neg c14] at hx; subst hx; exact Or.inl rfl
    · rw [if_neg h] at hx
      exact Or.inl hx.symm
  exact key _ rfl

theorem visitExpression_counter (e : Expr) : ∀ g : IRGen,
    ((visitExpression g e).1).temp_counter = g.temp_counter + exprOps e := by
  induction e with
  | binary l op r ihl ihr =>
    intro g
    rcases hl : visitExpression g l with ⟨g1, ls⟩
    rcases hr : visitExpression g1 r with ⟨g2, rs⟩
    have h1 : g1.temp_counter = g.temp_counter + exprOps l := by simpa [hl] using ihl g
    have h2 : g2.temp_counter = g1.temp_counter + exprOps r := by simpa [hr] using ihr g1
    simp only [visitExpression, hl, hr, new_temp, exprOps]
    omega
  | unary op e ih =>
    intro g
    rcases he : visitExpression g e with ⟨g1, os⟩
    have h1 : g1.temp_counter = g.temp_counter + exprOps e := by simpa [he] using ih g
    simp only [visitExpression, he, new_temp, exprOps]
    omega
  | literal v => intro g; simp [visitExpression, exprOps]
  | evar n => intro g; simp [visitExpression, exprOps]

theorem generate_counter (g : IRGen) (s : Stmt) :
    ((generate g s).1).temp_counter = g.temp_counter + stmtOps s := by
  cases s with
  | exprStmt e name =>
    rcases he : visitExpression { g with code := [] } e with ⟨g1, res⟩
    have h : g1.temp_counter = g.temp_counter + exprOps e := by
      simpa [he] using visitExpression_counter e { g with code := [] }
    cases name with
    | none =>
      simp only [generate, visitStmt, he, stmtOps]
      split <;> simpa using h
    | some n =>
      simp only [generate, visitStmt, he, stmtOps]
      by_cases hn : n.isEmpty <;>
        simp only [hn, if_true, if_false, Bool.false_eq_true] <;>
        split <;> simpa using h
  | setStmt n v => simp [generate, visitStmt, stmtOps]
  | tableStmt tid => simp [generate, visitStmt, stmtOps]
  | evalStmt => simp [generate, visitStmt, stmtOps]
  | ruleStmt n e =>
    rcases he : visitExpression { g with code := [] } e with ⟨g1, res⟩
    have h : g1.temp_counter = g.temp_counter + exprOps e := by
      simpa [he] using visitExpression_counter e { g with code := [] }
    simp only [generate, visitStmt, he, stmtOps]
    simpa using h
  | inferStmt names => simp [generate, visitStmt, stmtOps]

/-! ### C1 — `NOT` constant folding is dead code -/

/-- C1: the spec says a line `<res> = NOT <lit>` folds to the negated
literal, and the optimizer's own comment agrees, but the folding rule sits
under the guard `len(parts) >= 5` while a well-formed `NOT` line has four
tokens, so such lines always pass through unchanged.  This theorem evaluates
the code at the failing inputs. -/
theorem not_literal_lines_pass_unchanged :
    optimize ["t1 = NOT 0", "t7 = NOT 1"] = ["t1 = NOT 0", "t7 = NOT 1"] := by
  decide

/-! ### C2 — the temporary counter is not reset per `generate` call -/

/-- C2 counterexample: lowering `expr A & B;` twice on the same generator
instance emits `t1 = AND A B` the first time but `t2 = AND A B` the second
time — the first temporary of the second call is `t2`, not `t1`, refuting
the claim that the counter restarts at zero for each call. -/
theorem generate_counter_not_reset_counterexample :
    (generate irg0 demoStmt).2 = ["t1 = AND A B"]
    ∧ (generate (generate irg0 demoStmt).1 demoStmt).2 = ["t2 = AND A B"] := by
  constructor <;> decide

/-- C2 amended: `generate` clears the code buffer but not the temporary
counter; after each call the counter has grown by exactly the number of
operator nodes lowered, so temporaries continue monotonically across calls
on the same instance (and a fresh temp is always `t<counter+1>`). -/
theorem generate_counter_carries_over (g : IRGen) (s : Stmt) :
    ((generate g s).1).temp_counter = g.temp_counter + stmtOps s
    ∧ (new_temp g).2 = "t" ++ natStr (g.temp_counter + 1) := by
  exact ⟨generate_counter g s, rfl⟩

/-! ### C3 — evaluator truth tables -/

/-- C3: for all boolean operands, the evaluator computes `AND` as
conjunction, `OR` as disjunction, `IMPLIES` as `¬a ∨ b`, `XOR` as
inequality, and `NOT` as negation. -/
theorem evaluator_truth_tables : ∀ a b : Bool,
    (runCode [] ["t1 = AND a b"] [("a", bv a), ("b", bv b)]).result = bv (a && b)
    ∧ (runCode [] ["t1 = OR a b"] [("a", bv a), ("b", bv b)]).result = bv (a || b)
    ∧ (runCode [] ["t1 = IMPLIES a b"] [("a", bv a), ("b", bv b)]).result = bv (!a || b)
    ∧ (runCode [] ["t1 = XOR a b"] [("a", bv a), ("b", bv b)]).result = bv (a != b)
    ∧ (runCode [] ["t1 = NOT a"] [("a", bv a)]).result = bv (!a) := by
  decide

/-! ### C7 — optimizer folding scenarios -/

/-- C7: `t1 = AND 0 X` folds to `t1 = 0`, `t1 = OR 0 X` to `t1 = X`,
`t1 = XOR 1 1` to `t1 = 0`, and `t1 = IMPLIES 1 1` passes through unchanged
(no `IMPLIES` folding rule exists). -/
theorem optimizer_fold_scenarios :
    optimize ["t1 = AND 0 X", "t1 = OR 0 X", "t1 = XOR 1 1", "t1 = IMPLIES 1 1"]
      = ["t1 = 0", "t1 = X", "t1 = 0", "t1 = IMPLIES 1 1"] := by
  decide

/-! ### C9 — an unknown table target does not raise -/

/-- C9 counterexample: executing `TABLE foo` with `foo` absent from
`saved_code` completes normally (`.ok`, never `.error`), leaving the state
unchanged and merely printing the error text — no failure propagates to the
caller. -/
theorem unknown_table_target_returns_normally :
    execute initInterp ["TABLE foo"]
      = .ok (initInterp, ["Error: Unknown rule or expression 'foo'"]) := by
  rfl

/-! ### C8 — the optimizer preserves length, order, and targets -/

/-- C8: the optimized block has the same length and order as the input;
line `i` of the output is either the input line unchanged or an assignment
`<target> = <rhs>` whose target is the first token of input line `i` (which
was itself an assignment line, so only right-hand sides change); and any
line whose second token is not `=` — in particular every `TABLE`/`EVAL`/
`INFER` command line — passes through unchanged. -/
theorem optimizer_preserves_shape (code : List String) (i : Nat)
    (hi : i < code.length) (line : String)
    (hline : (pySplit line).getD 1 "" ≠ "=") :
    (optimize code).length = code.length
    ∧ ((optimize code).getD i "" = code.getD i ""
        ∨ ∃ rhs, (optimize code).getD i ""
            = (pySplit (code.getD i "")).getD 0 "" ++ " = " ++ rhs
            ∧ (pySplit (code.getD i "")).getD 1 "" = "=")
    ∧ optLine line = line := by
  refine ⟨by simp [optimize], ?_, ?_⟩
  · have hg : (optimize code).getD i "" = optLine (code.getD i "") := by
      simp [optimize, List.getD_eq_getElem?_getD, List.getElem?_eq_getElem hi,
        List.getElem?_map]
    rw [hg]
    exact optRewrite_cases (pySplit (code.getD i "")) (code.getD i "")
  · cases optRewrite_cases (pySplit line) line with
    | inl hl => exact hl
    | inr hr => obtain ⟨rhs, _, h2⟩ := hr; exact absurd h2 hline

/-- C8 witness: the theorem applied at a concrete block and command line. -/
theorem optimizer_preserves_shape_witness :
    (optimize ["t1 = AND 0 X", "TABLE R"]).length
        = (["t1 = AND 0 X", "TABLE R"] : List String).length
    ∧ ((optimize ["t1 = AND 0 X", "TABLE R"]).getD 0 ""
          = (["t1 = AND 0 X", "TABLE R"] : List String).getD 0 ""
        ∨ ∃ rhs, (optimize ["t1 = AND 0 X", "TABLE R"]).getD 0 ""
            = (pySplit ((["t1 = AND 0 X", "TABLE R"] : List String).getD 0 "")).getD 0 ""
                ++ " = " ++ rhs
            ∧ (pySplit ((["t1 = AND 0 X", "TABLE R"] : List String).getD 0 "")).getD 1 ""
                = "=")
    ∧ optLine "TABLE R" = "TABLE R" :=
  optimizer_preserves_shape ["t1 = AND 0 X", "TABLE R"] 0 (by decide) "TABLE R" (by decide)

/-! ### C10 — no key of the global variables store ever begins with `'t'` -/

theorem dSet_keys {α : Type} (m : List (String × α))
    (k : String) (v : α) (hm : ∀ p ∈ m, strStartsWith p.1 "t" = false)
    (hk : strStartsWith k "t" = false) :
    ∀ p ∈ dSet m k v, strStartsWith p.1 "t" = false := by
  unfold dSet
  by_cases h : m.any (fun p => p.1 == k) = true
  · rw [if_pos h]
    intro p hp
    obtain ⟨q, hq, hpq⟩ := List.mem_map.mp hp
    by_cases hqk : (q.1 == k) = true
    · rw [if_pos hqk] at hpq
      rw [← hpq]
      exact hk
    · rw [if_neg hqk] at hpq
      rw [← hpq]
      exact hm q hq
  · rw [if_neg h]
    intro p hp
    rcases List.mem_append.mp hp with h1 | h2
    · exact hm p h1
    · rw [List.mem_singleton.mp h2]
      exact hk

theorem dSet_hasKey_self {α : Type} (m : List (String × α)) (k : String) (v : α) :
    hasKey (dSet m k v) k = true := by
  unfold dSet hasKey
  by_cases h : m.any (fun p => p.1 == k) = true
  · rw [if_pos h]
    obtain ⟨q, hq, hqk⟩ := List.any_eq_true.mp h
    refine List.any_eq_true.mpr ⟨(k, v), ?_, by simp⟩
    have hmem := List.mem_map_of_mem
      (fun p => if p.1 == k then ((k, v) : String × α) else p) hq
    simp only [hqk, eq_self_iff_true, if_true] at hmem
    exact hmem
  · rw [if_neg h]
    exact List.any_eq_true.mpr ⟨(k, v), by simp, by simp⟩

theorem dSet_hasKey_mono {α : Type} (m : List (String × α)) (k j : String) (v : α)
    (hj : hasKey m j = true) : hasKey (dSet m k v) j = true := by
  unfold dSet hasKey
  unfold hasKey at hj
  by_cases h : m.any (fun p => p.1 == k) = true
  · rw [if_pos h]
    obtain ⟨q, hq, hqj⟩ := List.any_eq_true.mp hj
    by_cases hqk : (q.1 == k) = true
    · refine List.any_eq_true.mpr ⟨(k, v), ?_, ?_⟩
      · have hmem := List.mem_map_of_mem
          (fun p => if p.1 == k then ((k, v) : String × α) else p) hq
        simp only [hqk, eq_self_iff_true, if_true] at hmem
        exact hmem
      · have h1 : q.1 = j := by simpa using hqj
        have h2 : q.1 = k := by simpa using hqk
        simp [← h1, ← h2]
    · refine List.any_eq_true.mpr ⟨q, ?_, hqj⟩
      have hmem := List.mem_map_of_mem
        (fun p => if p.1 == k then ((k, v) : String × α) else p) hq
      simp only [hqk, if_false] at hmem
      exact hmem
  · rw [if_neg h]
    obtain ⟨q, hq, hqj⟩ := List.any_eq_true.mp hj
    exact List.any_eq_true.mpr ⟨q, List.mem_append_left _ hq, hqj⟩

theorem cacheUpdate_vars (st : Interp) (code : List String) :
    (cacheUpdate st code).vars = st.vars := by
  by_cases hc : (classify code).1 = true <;> simp [cacheUpdate, hc]

theorem runParts_globals_keys (s : RunState) (parts : List String)
    (h : ∀ p ∈ s.globals, strStartsWith p.1 "t" = false) :
    ∀ p ∈ (runParts s parts).globals, strStartsWith p.1 "t" = false := by
  unfold runParts
  by_cases h1 : parts.isEmpty = true
  · rw [if_pos h1]; exact h
  rw [if_neg h1]
  by_cases h2 : (parts.getD 0 "" == "TABLE" || parts.getD 0 "" == "EVAL"
      || parts.getD 0 "" == "INFER") = true
  · rw [if_pos h2]; exact h
  rw [if_neg h2]
  by_cases h3 : (decide (3 ≤ parts.length) && parts.getD 1 "" == "=") = true
  · rw [if_pos h3]
    by_cases h4 : strStartsWith (parts.getD 0 "") "t" = true
    · rw [if_pos h4]; exact h
    · rw [if_neg h4]
      simp only [Bool.not_eq_true] at h4
      exact dSet_keys s.globals (parts.getD 0 "") (evalParts s parts) h h4
  · rw [if_neg h3]; exact h

theorem runParts_hasKey_mono (s : RunState) (parts : List String) (j : String)
    (hj : hasKey s.globals j = true) :
    hasKey (runParts s parts).globals j = true := by
  unfold runParts
  by_cases h1 : parts.isEmpty = true
  · rw [if_pos h1]; exact hj
  rw [if_neg h1]
  by_cases h2 : (parts.getD 0 "" == "TABLE" || parts.getD 0 "" == "EVAL"
      || parts.getD 0 "" == "INFER") = true
  · rw [if_pos h2]; exact hj
  rw [if_neg h2]
  by_cases h3 : (decide (3 ≤ parts.length) && parts.getD 1 "" == "=") = true
  · rw [if_pos h3]
    by_cases h4 : strStartsWith (parts.getD 0 "") "t" = true
    · rw [if_pos h4]; exact hj
    · rw [if_neg h4]
      exact dSet_hasKey_mono _ _ _ _ hj
  · rw [if_neg h3]; exact hj

theorem runParts_writes (s : RunState) (parts : List String)
    (hlen : 3 ≤ parts.length) (heq : (parts.getD 1 "") = "=")
    (hnc : parts.getD 0 "" ∉ (["TABLE", "EVAL", "INFER"] : List String))
    (hnt : strStartsWith (parts.getD 0 "") "t" = false) :
    hasKey (runParts s parts).globals (parts.getD 0 "") = true := by
  unfold runParts
  have h1 : ¬(parts.isEmpty = true) := by
    cases hps : parts with
    | nil => rw [hps] at hlen; simp at hlen
    | cons a as => simp
  rw [if_neg h1]
  simp only [List.mem_cons, List.not_mem_nil, or_false, not_or] at hnc
  have h2 : (parts.getD 0 "" == "TABLE" || parts.getD 0 "" == "EVAL"
      || parts.getD 0 "" == "INFER") = false := by
    simp only [Bool.or_eq_false_iff, beq_eq_false_iff_ne, ne_eq]
    exact ⟨⟨hnc.1, hnc.2.1⟩, hnc.2.2⟩
  rw [if_neg (fun hcontra => Bool.false_ne_true (h2 ▸ hcontra))]
  rw [if_pos (by
    simp only [Bool.and_eq_true, decide_eq_true_eq, beq_iff_eq]
    exact ⟨hlen, heq⟩ :
    (decide (3 ≤ parts.length) && parts.getD 1 "" == "=") = true)]
  rw [if_neg (fun hcontra => Bool.false_ne_true (hnt ▸ hcontra))]
  exact dSet_hasKey_self s.globals _ _

theorem runFold_globals_keys (code : List String) : ∀ s : RunState,
    (∀ p ∈ s.globals, strStartsWith p.1 "t" = false) →
    ∀ p ∈ (code.foldl runLine s).globals, strStartsWith p.1 "t" = false := by
  induction code with
  | nil => intro s h; exact h
  | cons l ls ih =>
    intro s h
    exact ih (runLine s l) (runParts_globals_keys s (pySplit l) h)

theorem runFold_hasKey_mono (code : List String) : ∀ (s : RunState) (j : String),
    hasKey s.globals j = true →
    hasKey ((code.foldl runLine s).globals) j = true := by
  induction code with
  | nil => intro s j h; exact h
  | cons l ls ih =>
    intro s j h
    exact ih (runLine s l) j (runParts_hasKey_mono s (pySplit l) j h)

theorem runFold_writes (code : List String) : ∀ (s : RunState) (line : String),
    line ∈ code →
    3 ≤ (pySplit line).length → (pySplit line).getD 1 "" = "=" →
    (pySplit line).getD 0 "" ∉ (["TABLE", "EVAL", "INFER"] : List String) →
    strStartsWith ((pySplit line).getD 0 "") "t" = false →
    hasKey ((code.foldl runLine s).globals) ((pySplit line).getD 0 "") = true := by
  induction code with
  | nil => intro s line h; exact absurd h (List.not_mem_nil line)
  | cons l ls ih =>
    intro s line hmem hlen heq hnc hnt
    rcases List.mem_cons.mp hmem with h | h
    · subst h
      exact runFold_hasKey_mono ls (runLine s line) _
        (runParts_writes s (pySplit line) hlen heq hnc hnt)
    · exact ih (runLine s l) line h hlen heq hnc hnt

theorem runCode_globals_keys (g : List (String × Nat)) (code : List String)
    (loc : List (String × Nat)) (h : ∀ p ∈ g, strStartsWith p.1 "t" = false) :
    ∀ p ∈ (runCode g code loc).globals, strStartsWith p.1 "t" = false :=
  runFold_globals_keys code _ h

theorem runCode_writes (g : List (String × Nat)) (code : List String)
    (loc : List (String × Nat)) (line : String) (hmem : line ∈ code)
    (hlen : 3 ≤ (pySplit line).length) (heq : (pySplit line).getD 1 "" = "=")
    (hnc : (pySplit line).getD 0 "" ∉ (["TABLE", "EVAL", "INFER"] : List String))
    (hnt : strStartsWith ((pySplit line).getD 0 "") "t" = false) :
    hasKey (runCode g code loc).globals ((pySplit line).getD 0 "") = true :=
  runFold_writes code _ line hmem hlen heq hnc hnt

theorem tableFold_globals_keys (tc sv : List String) (rows : List (List Nat)) :
    ∀ acc : Interp × List String,
    (∀ p ∈ acc.1.vars, strStartsWith p.1 "t" = false) →
    ∀ p ∈ (rows.foldl (tableStep tc sv) acc).1.vars,
      strStartsWith p.1 "t" = false := by
  induction rows with
  | nil => intro acc h; exact h
  | cons r rs ih =>
    intro acc h
    refine ih (tableStep tc sv acc r) ?_
    exact runCode_globals_keys acc.1.vars tc (sv.zip r) h

theorem tableRun_globals_keys (st : Interp) (tc : List String)
    (h : ∀ p ∈ st.vars, strStartsWith p.1 "t" = false) :
    ∀ p ∈ (tableRun st tc).1.vars, strStartsWith p.1 "t" = false := by
  by_cases hsv : (sortedVarsOf tc).isEmpty = true
  · rw [show (tableRun st tc) = (st, ["No variables to generate table for."]) by
      simp [tableRun, hsv]]
    exact h
  · have := tableFold_globals_keys tc (sortedVarsOf tc)
      (prodBits (sortedVarsOf tc).length) (st, []) h
    simp only [tableRun, hsv, Bool.false_eq_true, if_false]
    exact this

theorem handle_table_globals_keys (st : Interp) (code : List String) (cmd : String)
    (h : ∀ p ∈ st.vars, strStartsWith p.1 "t" = false) :
    ∀ p ∈ (handle_table st code cmd).1.vars, strStartsWith p.1 "t" = false := by
  cases htid : tableTargetId cmd with
  | some tid =>
    cases hdg : dGet st.saved_code tid with
    | some tc =>
      rw [show handle_table st code cmd = tableRun st tc by
        simp [handle_table, htid, hdg]]
      exact tableRun_globals_keys st tc h
    | none =>
      rw [show handle_table st code cmd
          = (st, ["Error: Unknown rule or expression '" ++ tid ++ "'"]) by
        simp [handle_table, htid, hdg]]
      exact h
  | none =>
    by_cases hcond : ((!code.any fun l => strContains l '=')
        && !st.last_ir.isEmpty) = true
    · rw [show handle_table st code cmd = tableRun st st.last_ir by
        simp [handle_table, htid, hcond]]
      exact tableRun_globals_keys st st.last_ir h
    · rw [show handle_table st code cmd = tableRun st code by
        simp [handle_table, htid, hcond]]
      exact tableRun_globals_keys st code h

theorem handle_eval_globals_keys (st : Interp)
    (h : ∀ p ∈ st.vars, strStartsWith p.1 "t" = false) :
    ∀ p ∈ (handle_eval st).1.vars, strStartsWith p.1 "t" = false := by
  unfold handle_eval
  by_cases he : st.last_ir.isEmpty = true
  · rw [if_pos he]; exact h
  · rw [if_neg he]
    exact runCode_globals_keys st.vars st.last_ir [] h

theorem executeCore_globals_keys (st : Interp) (code : List String)
    (h : ∀ p ∈ st.vars, strStartsWith p.1 "t" = false) :
    ∀ p ∈ (executeCore st code).1.vars, strStartsWith p.1 "t" = false := by
  have hcu : ∀ p ∈ (cacheUpdate st code).vars, strStartsWith p.1 "t" = false := by
    rw [cacheUpdate_vars]; exact h
  cases hf : code.find? (fun l => strStartsWith l "TABLE" || strStartsWith l "EVAL") with
  | some l =>
    by_cases hl : strStartsWith l "TABLE" = true
    · rw [show executeCore st code = handle_table (cacheUpdate st code) code l by
        simp [executeCore, hf, hl]]
      exact handle_table_globals_keys _ code l hcu
    · rw [show executeCore st code = handle_eval (cacheUpdate st code) by
        simp [executeCore, hf, hl]]
      exact handle_eval_globals_keys _ hcu
  | none =>
    have hrun : ∀ p ∈ (runCode (cacheUpdate st code).vars code []).globals,
        strStartsWith p.1 "t" = false :=
      runCode_globals_keys _ code [] hcu
    cases hf2 : code.find? (fun l => strStartsWith l "INFER") with
    | some l =>
      rw [show executeCore st code
          = handle_infer
              { cacheUpdate st code with
                vars := (runCode (cacheUpdate st code).vars code []).globals } l by
        simp [executeCore, hf, hf2]]
      exact hrun
    | none =>
      rw [show executeCore st code
          = ({ cacheUpdate st code with
                vars := (runCode (cacheUpdate st code).vars code []).globals },
              ([] : List String)) by
        simp [executeCore, hf, hf2]]
      exact hrun

/-- C10: (a) `execute` preserves the invariant that no key of the
session-global variables store begins with lowercase `'t'` — any assignment
target beginning with `'t'` (including user names such as `total`) goes only
to the block-local temporary map; (b) conversely, every executed assignment
line whose target does not begin with `'t'` writes that target through to
the globals of the evaluator run. -/
theorem globals_never_hold_temp_names (st : Interp) (code : List String)
    (g loc : List (String × Nat)) (blk : List String) (line : String)
    (h0 : ∀ p ∈ st.vars, strStartsWith p.1 "t" = false)
    (hmem : line ∈ blk)
    (hlen : 3 ≤ (pySplit line).length)
    (heq : (pySplit line).getD 1 "" = "=")
    (hnc : (pySplit line).getD 0 "" ∉ (["TABLE", "EVAL", "INFER"] : List String))
    (hnt : strStartsWith ((pySplit line).getD 0 "") "t" = false) :
    (∀ p ∈ (executeCore st code).1.vars, strStartsWith p.1 "t" = false)
    ∧ hasKey (runCode g blk loc).globals ((pySplit line).getD 0 "") = true :=
  ⟨executeCore_globals_keys st code h0,
   runCode_writes g blk loc line hmem hlen heq hnc hnt⟩

/-- C10 witness: a `set total = 1; set X = A` style block — `total` begins
with `'t'` so it never reaches the globals, while `X` does. -/
theorem globals_never_hold_temp_names_witness :
    (∀ p ∈ (executeCore demoState ["t1 = AND A B"]).1.vars,
      strStartsWith p.1 "t" = false)
    ∧ hasKey (runCode [] ["total = 1", "X = A"] []).globals
        ((pySplit "X = A").getD 0 "") = true :=
  globals_never_hold_temp_names demoState ["t1 = AND A B"] [] []
    ["total = 1", "X = A"] "X = A" (by decide) (by decide) (by decide)
    (by decide) (by decide) (by decide)

/-! ### C4 — truth-table shape: sorted variables, 2^n rows, binary order -/

theorem charListLe_total : ∀ as bs : List Char,
    charListLe as bs = true ∨ charListLe bs as = true := by
  intro as
  induction as with
  | nil => intro bs; left; rfl
  | cons a as ih =>
    intro bs
    cases bs with
    | nil => right; rfl
    | cons b bs =>
      by_cases hab : a.toNat = b.toNat
      · rw [show charListLe (a :: as) (b :: bs) = charListLe as bs by
            simp [charListLe, hab],
          show charListLe (b :: bs) (a :: as) = charListLe bs as by
            simp [charListLe, hab.symm]]
        exact ih bs
      · rcases Nat.lt_or_ge a.toNat b.toNat with h | h
        · left; simp [charListLe, hab, h]
        · right
          have hba : ¬ b.toNat = a.toNat := fun e => hab e.symm
          simp [charListLe, hba, show b.toNat < a.toNat by omega]

theorem charListLe_trans : ∀ as bs cs : List Char,
    charListLe as bs = true → charListLe bs cs = true →
    charListLe as cs = true := by
  intro as
  induction as with
  | nil => intro bs cs _ _; rfl
  | cons a as ih =>
    intro bs cs h1 h2
    cases bs with
    | nil => simp [charListLe] at h1
    | cons b bs =>
      cases cs with
      | nil => simp [charListLe] at h2
      | cons c cs =>
        by_cases hab : a.toNat = b.toNat
        · rw [show charListLe (a :: as) (b :: bs) = charListLe as bs by
            simp [charListLe, hab]] at h1
          by_cases hbc : b.toNat = c.toNat
          · rw [show charListLe (b :: bs) (c :: cs) = charListLe bs cs by
              simp [charListLe, hbc]] at h2
            rw [show charListLe (a :: as) (c :: cs) = charListLe as cs by
              simp [charListLe, hab.trans hbc]]
            exact ih bs cs h1 h2
          · have hlt : b.toNat < c.toNat := by
              simp [charListLe, hbc] at h2; exact h2
            simp [charListLe, show ¬ a.toNat = c.toNat by omega,
              show a.toNat < c.toNat by omega]
        · have hlt : a.toNat < b.toNat := by
            simp [charListLe, hab] at h1; exact h1
          by_cases hbc : b.toNat = c.toNat
          · simp [charListLe, show ¬ a.toNat = c.toNat by omega,
              show a.toNat < c.toNat by omega]
          · have hlt2 : b.toNat < c.toNat := by
              simp [charListLe, hbc] at h2; exact h2
            simp [charListLe, show ¬ a.toNat = c.toNat by omega,
              show a.toNat < c.toNat by omega]

theorem strLeB_total (a b : String) : strLeB a b = true ∨ strLeB b a = true :=
  charListLe_total a.data b.data

theorem strLeB_trans {a b c : String} (h1 : strLeB a b = true)
    (h2 : strLeB b c = true) : strLeB a c = true :=
  charListLe_trans a.data b.data c.data h1 h2

theorem insertStr_perm (x : String) : ∀ l : List String,
    List.Perm (insertStr x l) (x :: l) := by
  intro l
  induction l with
  | nil => exact List.Perm.refl _
  | cons y ys ih =>
    by_cases h : strLeB x y = true
    · rw [show insertStr x (y :: ys) = x :: y :: ys by simp [insertStr, h]]
    · rw [show insertStr x (y :: ys) = y :: insertStr x ys by simp [insertStr, h]]
      exact List.Perm.trans (List.Perm.cons y ih) (List.Perm.swap x y ys)

theorem sortStrs_perm : ∀ l : List String, List.Perm (sortStrs l) l := by
  intro l
  induction l with
  | nil => exact List.Perm.refl _
  | cons a l ih =>
    exact List.Perm.trans (insertStr_perm a (sortStrs l)) (List.Perm.cons a ih)

theorem mem_sortStrs (x : String) (l : List String) :
    x ∈ sortStrs l ↔ x ∈ l :=
  (sortStrs_perm l).mem_iff

theorem nodup_sortStrs (l : List String) (h : l.Nodup) : (sortStrs l).Nodup :=
  ((sortStrs_perm l).nodup_iff).mpr h

theorem pairwise_insertStr (x : String) : ∀ l : List String,
    l.Pairwise (fun a b => strLeB a b = true) →
    (insertStr x l).Pairwise (fun a b => strLeB a b = true) := by
  intro l
  induction l with
  | nil => intro _; simp [insertStr]
  | cons y ys ih =>
    intro hp
    rw [List.pairwise_cons] at hp
    obtain ⟨hy, hys⟩ := hp
    by_cases h : strLeB x y = true
    · rw [show insertStr x (y :: ys) = x :: y :: ys by simp [insertStr, h]]
      rw [List.pairwise_cons]
      refine ⟨?_, List.pairwise_cons.mpr ⟨hy, hys⟩⟩
      intro z hz
      rcases List.mem_cons.mp hz with rfl | hz'
      · exact h
      · exact strLeB_trans h (hy z hz')
    · rw [show insertStr x (y :: ys) = y :: insertStr x ys by simp [insertStr, h]]
      rw [List.pairwise_cons]
      refine ⟨?_, ih hys⟩
      intro z hz
      rcases List.mem_cons.mp ((insertStr_perm x ys).mem_iff.mp hz) with rfl | hz'
      · rcases strLeB_total y z with ht | ht
        · exact ht
        · exact absurd ht h
      · exact hy z hz'

theorem sortStrs_pairwise : ∀ l : List String,
    (sortStrs l).Pairwise (fun a b => strLeB a b = true) := by
  intro l
  induction l with
  | nil => simp [sortStrs]
  | cons a l ih => exact pairwise_insertStr a (sortStrs l) ih

theorem inputVarsStep_nodup (a : List String) (op : String) (h : a.Nodup) :
    (inputVarsStep a op).Nodup := by
  unfold inputVarsStep
  by_cases hc : (pyIsAlpha op && !isOp op && !strStartsWith op "t"
      && !a.contains op) = true
  · rw [if_pos hc]
    have h2 := ((Bool.and_eq_true _ _).mp hc).2
    have hmem : op ∉ a := by simpa [List.contains] using h2
    simp [List.nodup_append, h, hmem]
  · rw [if_neg hc]
    exact h

theorem inputVarsFold_nodup (ops : List String) : ∀ a : List String,
    a.Nodup → (ops.foldl inputVarsStep a).Nodup := by
  induction ops with
  | nil => intro a h; exact h
  | cons op ops ih =>
    intro a h
    exact ih (inputVarsStep a op) (inputVarsStep_nodup a op h)

theorem inputVarsParts_nodup (a : List String) (parts : List String)
    (h : a.Nodup) : (inputVarsParts a parts).Nodup := by
  unfold inputVarsParts
  by_cases hc : (decide (3 ≤ parts.length) && parts.getD 1 "" == "=") = true
  · rw [if_pos hc]
    exact inputVarsFold_nodup _ a h
  · rw [if_neg hc]
    exact h

theorem inputVars_nodup (tc : List String) : (inputVars tc).Nodup := by
  suffices h : ∀ (lines : List String) (acc : List String), acc.Nodup →
      (lines.foldl inputVarsLine acc).Nodup from h tc [] List.nodup_nil
  intro lines
  induction lines with
  | nil => intro acc h; exact h
  | cons l ls ih =>
    intro acc h
    exact ih (inputVarsLine acc l) (inputVarsParts_nodup acc (pySplit l) h)

theorem prodBits_length (n : Nat) : (prodBits n).length = 2 ^ n := by
  induction n with
  | zero => rfl
  | succ n ih =>
    simp only [prodBits, List.length_append, List.length_map, ih]
    rw [pow_succ]
    omega

theorem prodBits_getElem (n : Nat) : ∀ k : Nat, k < 2 ^ n →
    (prodBits n)[k]? = some (natBits n k) := by
  induction n with
  | zero =>
    intro k hk
    have : k = 0 := by omega
    subst this
    rfl
  | succ n ih =>
    intro k hk
    rw [show prodBits (n + 1)
        = (prodBits n).map (0 :: ·) ++ (prodBits n).map (1 :: ·) from rfl]
    by_cases h : k < 2 ^ n
    · rw [List.getElem?_append_left (by simp [prodBits_length]; exact h)]
      rw [List.getElem?_map, ih k h]
      simp [natBits, Nat.div_eq_of_lt h, Nat.mod_eq_of_lt h]
    · obtain ⟨r, rfl⟩ : ∃ r, k = 2 ^ n + r := ⟨k - 2 ^ n, by omega⟩
      have hr : r < 2 ^ n := by rw [pow_succ] at hk; omega
      rw [List.getElem?_append_right (by simp [prodBits_length])]
      have hidx : 2 ^ n + r - ((prodBits n).map (0 :: ·)).length = r := by
        simp [prodBits_length]
      rw [hidx, List.getElem?_map, ih r hr]
      have hdiv : (2 ^ n + r) / 2 ^ n = 1 := by
        rw [Nat.add_comm, Nat.add_div_right _ (Nat.two_pow_pos n),
          Nat.div_eq_of_lt hr]
      have hmod : (2 ^ n + r) % 2 ^ n = r := by
        rw [Nat.add_mod_left, Nat.mod_eq_of_lt hr]
      simp [natBits, hdiv, hmod]

theorem tableFold_snd_ext (tc sv : List String) (rows : List (List Nat)) :
    ∀ acc : Interp × List String, ∃ tail,
      (rows.foldl (tableStep tc sv) acc).2 = acc.2 ++ tail := by
  induction rows with
  | nil => intro acc; exact ⟨[], by simp⟩
  | cons r rs ih =>
    intro acc
    obtain ⟨tail, htail⟩ := ih (tableStep tc sv acc r)
    refine ⟨(joinSep " | " (r.map natStr) ++ " | "
        ++ natStr (runCode acc.1.vars tc (sv.zip r)).result) :: tail, ?_⟩
    rw [List.foldl_cons, htail]
    simp [tableStep]

theorem tableFold_snd_length (tc sv : List String) (rows : List (List Nat)) :
    ∀ acc : Interp × List String,
      ((rows.foldl (tableStep tc sv) acc).2).length = acc.2.length + rows.length := by
  induction rows with
  | nil => intro acc; simp
  | cons r rs ih =>
    intro acc
    rw [List.foldl_cons, ih (tableStep tc sv acc r)]
    simp [tableStep]
    omega

theorem tableFold_row (tc sv : List String) (rows : List (List Nat)) :
    ∀ (acc : Interp × List String) (k : Nat), k < rows.length →
      ∃ res : Nat, ((rows.foldl (tableStep tc sv) acc).2).getD (acc.2.length + k) ""
        = joinSep " | " ((rows.getD k []).map natStr) ++ " | " ++ natStr res := by
  induction rows with
  | nil => intro acc k hk; simp at hk
  | cons r rs ih =>
    intro acc k hk
    cases k with
    | zero =>
      obtain ⟨tail, htail⟩ := tableFold_snd_ext tc sv rs (tableStep tc sv acc r)
      refine ⟨(runCode acc.1.vars tc (sv.zip r)).result, ?_⟩
      rw [List.foldl_cons, htail]
      simp only [tableStep, List.getD_cons_zero, List.getD_eq_getElem?_getD,
        List.append_assoc]
      rw [List.getElem?_append_right (Nat.le_add_right _ 0)]
      simp
    | succ k' =>
      have hk' : k' < rs.length := by simpa using hk
      obtain ⟨res, hres⟩ := ih (tableStep tc sv acc r) k' hk'
      refine ⟨res, ?_⟩
      rw [List.foldl_cons]
      have hlen2 : (tableStep tc sv acc r).2.length = acc.2.length + 1 := by
        simp [tableStep]
      rw [show acc.2.length + (k' + 1) = (tableStep tc sv acc r).2.length + k' by
        rw [hlen2]; omega]
      simpa using hres

/-- C4: for a `TABLE <id>` command resolving to a saved block `B` with at
least one input variable, `handle_table` sorts the distinct input variables
lexicographically (code-point order, `strLeB`), prints a header, a
separator, and then exactly `2^n` rows; row `k` carries the value tuple
`natBits n k` — the `n`-bit big-endian binary digits of `k` — so the rows
enumerate the assignments in ascending binary counting order with the first
(lexicographically smallest) variable most significant. -/
theorem table_rows_enumerate_binary (st : Interp) (code : List String)
    (cmd : String) (tid : String) (B : List String)
    (hres : tableTargetId cmd = some tid)
    (hsaved : dGet st.saved_code tid = some B)
    (hsv : (sortedVarsOf B).isEmpty = false) :
    ((sortedVarsOf B).Pairwise (fun a b => strLeB a b = true)
      ∧ (sortedVarsOf B).Nodup
      ∧ (∀ x, x ∈ sortedVarsOf B ↔ x ∈ inputVars B))
    ∧ (handle_table st code cmd).2.length = 2 + 2 ^ (sortedVarsOf B).length
    ∧ ∀ k, k < 2 ^ (sortedVarsOf B).length →
        ∃ res : Nat, (handle_table st code cmd).2.getD (2 + k) ""
          = joinSep " | " ((natBits (sortedVarsOf B).length k).map natStr)
              ++ " | " ++ natStr res := by
  have hht : handle_table st code cmd = tableRun st B := by
    simp [handle_table, hres, hsaved]
  have htr : (tableRun st B).2
      = (joinSep " | " (sortedVarsOf B) ++ " | Result")
        :: String.mk (List.replicate
            (joinSep " | " (sortedVarsOf B) ++ " | Result").length '-')
        :: ((prodBits (sortedVarsOf B).length).foldl
            (tableStep B (sortedVarsOf B)) (st, [])).2 := by
    simp only [tableRun, hsv, Bool.false_eq_true, if_false]
  refine ⟨⟨sortStrs_pairwise _, nodup_sortStrs _ (inputVars_nodup B),
    fun x => mem_sortStrs x _⟩, ?_, ?_⟩
  · rw [hht, htr]
    simp only [List.length_cons, tableFold_snd_length, prodBits_length,
      List.length_nil]
    omega
  · intro k hk
    obtain ⟨res, hrow⟩ := tableFold_row B (sortedVarsOf B)
      (prodBits (sortedVarsOf B).length) (st, []) k
      (by rw [prodBits_length]; exact hk)
    refine ⟨res, ?_⟩
    rw [hht, htr]
    rw [show 2 + k = (k + 1) + 1 by omega]
    rw [List.getD_cons_succ, List.getD_cons_succ]
    have hpb : (prodBits (sortedVarsOf B).length).getD k []
        = natBits (sortedVarsOf B).length k := by
      rw [List.getD_eq_getElem?_getD, prodBits_getElem _ k hk]
      rfl
    rw [← hpb]
    simpa using hrow

/-- C4 witness: `table R` over the saved rule block of `R: A | B;` — two
sorted variables `A < B`, four rows in binary order `00, 01, 10, 11`. -/
theorem table_rows_enumerate_binary_witness :
    (((sortedVarsOf ["t1 = OR A B", "R = t1"]).Pairwise
        (fun a b => strLeB a b = true)
      ∧ (sortedVarsOf ["t1 = OR A B", "R = t1"]).Nodup
      ∧ (∀ x, x ∈ sortedVarsOf ["t1 = OR A B", "R = t1"]
          ↔ x ∈ inputVars ["t1 = OR A B", "R = t1"]))
    ∧ (handle_table demoState ["TABLE R"] "TABLE R").2.length
        = 2 + 2 ^ (sortedVarsOf ["t1 = OR A B", "R = t1"]).length
    ∧ ∀ k, k < 2 ^ (sortedVarsOf ["t1 = OR A B", "R = t1"]).length →
        ∃ res : Nat, (handle_table demoState ["TABLE R"] "TABLE R").2.getD (2 + k) ""
          = joinSep " | "
              ((natBits (sortedVarsOf ["t1 = OR A B", "R = t1"]).length k).map natStr)
              ++ " | " ++ natStr res)
    ∧ (handle_table demoState ["TABLE R"] "TABLE R").2
        = ["A | B | Result", "--------------",
           "0 | 0 | 0", "0 | 1 | 1", "1 | 0 | 1", "1 | 1 | 1"] := by
  refine ⟨table_rows_enumerate_binary demoState ["TABLE R"] "TABLE R" "R"
    ["t1 = OR A B", "R = t1"] (by decide) (by decide) (by decide), ?_⟩
  decide

/-! ### C5 — truth-table generation mutates the session globals -/

theorem prodBits_getLast (n : Nat) :
    (prodBits n).getLast? = some (List.replicate n 1) := by
  induction n with
  | zero => rfl
  | succ n ih =>
    simp [prodBits, List.getLast?_append, List.getLast?_map, ih,
      List.replicate_succ]

theorem prodBits_split (n : Nat) :
    (prodBits n).dropLast ++ [List.replicate n 1] = prodBits n :=
  List.dropLast_append_getLast? _ (prodBits_getLast n)

/-- C5: with at least one input variable, the state left by `tableRun` is
exactly the global store produced by the evaluator run of the final row —
the all-ones assignment `replicate n 1` to the sorted variables — starting
from the store accumulated over all earlier rows; and when the block assigns
a non-temporary name, that name is a key of the resulting global store (the
write-through mutation the spec describes). -/
theorem table_final_row_mutates_globals (st : Interp) (tc : List String)
    (line : String) (hmem : line ∈ tc)
    (hlen : 3 ≤ (pySplit line).length)
    (heq : (pySplit line).getD 1 "" = "=")
    (hnc : (pySplit line).getD 0 "" ∉ (["TABLE", "EVAL", "INFER"] : List String))
    (hnt : strStartsWith ((pySplit line).getD 0 "") "t" = false)
    (hsv : (sortedVarsOf tc).isEmpty = false) :
    (tableRun st tc).1.vars
      = (runCode ((((prodBits (sortedVarsOf tc).length).dropLast).foldl
            (tableStep tc (sortedVarsOf tc)) (st, [])).1.vars) tc
          ((sortedVarsOf tc).zip
            (List.replicate (sortedVarsOf tc).length 1))).globals
    ∧ hasKey (tableRun st tc).1.vars ((pySplit line).getD 0 "") = true := by
  have hfold : (prodBits (sortedVarsOf tc).length).foldl
      (tableStep tc (sortedVarsOf tc)) ((st, []) : Interp × List String)
      = tableStep tc (sortedVarsOf tc)
          (((prodBits (sortedVarsOf tc).length).dropLast).foldl
            (tableStep tc (sortedVarsOf tc)) (st, []))
          (List.replicate (sortedVarsOf tc).length 1) := by
    conv_lhs => rw [← prodBits_split (sortedVarsOf tc).length]
    rw [List.foldl_append]
    rfl
  have htr : (tableRun st tc).1
      = (tableStep tc (sortedVarsOf tc)
          (((prodBits (sortedVarsOf tc).length).dropLast).foldl
            (tableStep tc (sortedVarsOf tc)) (st, []))
          (List.replicate (sortedVarsOf tc).length 1)).1 := by
    simp only [tableRun, hsv, Bool.false_eq_true, if_false]
    rw [hfold]
  refine ⟨?_, ?_⟩
  · rw [htr]
    rfl
  · rw [htr]
    exact runCode_writes _ tc _ line hmem hlen heq hnc hnt

/-- C5 witness: running `table` over the rule block `R: A | B;` leaves
`R` bound in the globals to the final (all-ones) row's result. -/
theorem table_final_row_mutates_globals_witness :
    ((tableRun initInterp ["t1 = OR A B", "R = t1"]).1.vars
      = (runCode ((((prodBits
            (sortedVarsOf ["t1 = OR A B", "R = t1"]).length).dropLast).foldl
            (tableStep ["t1 = OR A B", "R = t1"]
              (sortedVarsOf ["t1 = OR A B", "R = t1"])) (initInterp, [])).1.vars)
          ["t1 = OR A B", "R = t1"]
          ((sortedVarsOf ["t1 = OR A B", "R = t1"]).zip
            (List.replicate (sortedVarsOf ["t1 = OR A B", "R = t1"]).length 1))).globals
    ∧ hasKey (tableRun initInterp ["t1 = OR A B", "R = t1"]).1.vars
        ((pySplit "R = t1").getD 0 "") = true)
    ∧ (tableRun initInterp ["t1 = OR A B", "R = t1"]).1.vars = [("R", 1)] := by
  refine ⟨table_final_row_mutates_globals initInterp ["t1 = OR A B", "R = t1"]
    "R = t1" (by decide) (by decide) (by decide) (by decide) (by decide)
    (by decide), ?_⟩
  decide

/-! ### C6 — the "meaningful block" classification and cache update -/

theorem classifyParts_fst (acc : Bool × List String) (parts : List String) :
    (classifyParts acc parts).1 = (acc.1 || partsExpr parts) := by
  unfold classifyParts partsExpr
  by_cases he : parts.isEmpty = true
  · rw [if_pos he]
    simp [he]
  · rw [if_neg he]
    by_cases hn : (decide (3 ≤ parts.length)
        && parts.getD 1 "" == "="
        && !strStartsWith (parts.getD 0 "") "t"
        && parts.getD 2 "" != "0"
        && parts.getD 2 "" != "1") = true
    · rw [if_pos hn]
      simp only [Bool.not_eq_true] at he
      rw [he, hn]
      simp
    · rw [if_neg hn]
      simp only [Bool.not_eq_true] at hn he
      rw [he, hn]
      simp [Bool.or_assoc]

theorem classify_fst (code : List String) : ∀ acc : Bool × List String,
    (code.foldl classifyLine acc).1 = (acc.1 || code.any lineExpr) := by
  induction code with
  | nil => intro acc; simp
  | cons l ls ih =>
    intro acc
    rw [List.foldl_cons, ih (classifyLine acc l),
      show classifyLine acc l = classifyParts acc (pySplit l) from rfl,
      classifyParts_fst, List.any_cons, Bool.or_assoc]
    rfl

theorem classifyParts_snd (acc : Bool × List String) (parts : List String) :
    (classifyParts acc parts).2
      = acc.2 ++ (match namedTargetParts parts with | some t => [t] | none => []) := by
  unfold classifyParts namedTargetParts
  by_cases he : parts.isEmpty = true
  · have hps : parts = [] := by simpa [List.isEmpty_iff] using he
    subst hps
    simp
  · rw [if_neg he]
    by_cases hn : (decide (3 ≤ parts.length)
        && parts.getD 1 "" == "="
        && !strStartsWith (parts.getD 0 "") "t"
        && parts.getD 2 "" != "0"
        && parts.getD 2 "" != "1") = true
    · rw [if_pos hn, if_pos hn]
    · rw [if_neg hn, if_neg hn]
      simp

theorem classify_snd (code : List String) : ∀ acc : Bool × List String,
    (code.foldl classifyLine acc).2 = acc.2 ++ code.filterMap namedTarget := by
  induction code with
  | nil => intro acc; simp
  | cons l ls ih =>
    intro acc
    rw [List.foldl_cons, ih (classifyLine acc l),
      show classifyLine acc l = classifyParts acc (pySplit l) from rfl,
      classifyParts_snd, List.filterMap_cons,
      show namedTarget l = namedTargetParts (pySplit l) from rfl]
    cases namedTargetParts (pySplit l) <;> simp

theorem partsExpr_eq_meaningful (parts : List String)
    (h : strStartsWith (parts.getD 0 "") "t" = true →
      2 ≤ parts.length ∧ parts.getD 1 "" = "=") :
    partsExpr parts = meaningfulParts parts := by
  unfold partsExpr meaningfulParts
  by_cases hT : strStartsWith (parts.getD 0 "") "t" = true
  · obtain ⟨hlen, heq⟩ := h hT
    have hne : parts.isEmpty = false := by
      cases hps : parts with
      | nil => rw [hps] at hlen; simp at hlen
      | cons a as => simp
    rw [hT, hne, heq, decide_eq_true hlen]
    simp
  · simp only [Bool.not_eq_true] at hT
    by_cases he : parts.isEmpty = true
    · have hps : parts = [] := by simpa [List.isEmpty_iff] using he
      subst hps
      simp
    · simp only [Bool.not_eq_true] at he
      rw [hT, he]
      simp [Bool.or_assoc]

theorem any_congr_of_mem {l : List String} {p q : String → Bool}
    (h : ∀ x ∈ l, p x = q x) : l.any p = l.any q := by
  induction l with
  | nil => rfl
  | cons a as ih =>
    simp only [List.any_cons, h a (by simp)]
    rw [ih fun x hx => h x (by simp [hx])]

theorem classify_eq_meaningful (code : List String) (hwf : wfBlock code = true) :
    (classify code).1 = meaningfulSpec code := by
  rw [show (classify code) = code.foldl classifyLine (false, []) from rfl,
    classify_fst]
  simp only [Bool.false_or, meaningfulSpec]
  refine any_congr_of_mem fun line hl => ?_
  have hline := List.all_eq_true.mp hwf line hl
  refine partsExpr_eq_meaningful (pySplit line) fun hT => ?_
  rw [hT] at hline
  simpa using hline

theorem tableFold_meta (tc sv : List String) (rows : List (List Nat)) :
    ∀ acc : Interp × List String,
      ((rows.foldl (tableStep tc sv) acc).1.last_ir = acc.1.last_ir)
      ∧ ((rows.foldl (tableStep tc sv) acc).1.saved_code = acc.1.saved_code) := by
  induction rows with
  | nil => intro acc; exact ⟨rfl, rfl⟩
  | cons r rs ih =>
    intro acc
    have := ih (tableStep tc sv acc r)
    simpa [tableStep] using this

theorem tableRun_meta (st : Interp) (tc : List String) :
    (tableRun st tc).1.last_ir = st.last_ir
    ∧ (tableRun st tc).1.saved_code = st.saved_code := by
  by_cases h : (sortedVarsOf tc).isEmpty
  · simp [tableRun, h]
  · have hm := tableFold_meta tc (sortedVarsOf tc)
      (prodBits (sortedVarsOf tc).length) (⟨st, []⟩ : Interp × List String)
    simp only [tableRun, h, Bool.false_eq_true, if_false]
    exact hm

theorem handle_table_meta (st : Interp) (code : List String) (cmd : String) :
    (handle_table st code cmd).1.last_ir = st.last_ir
    ∧ (handle_table st code cmd).1.saved_code = st.saved_code := by
  cases htid : tableTargetId cmd with
  | some tid =>
    cases hdg : dGet st.saved_code tid with
    | some tc =>
      rw [show handle_table st code cmd = tableRun st tc by
        simp [handle_table, htid, hdg]]
      exact tableRun_meta st tc
    | none =>
      rw [show handle_table st code cmd
          = (st, ["Error: Unknown rule or expression '" ++ tid ++ "'"]) by
        simp [handle_table, htid, hdg]]
      exact ⟨rfl, rfl⟩
  | none =>
    by_cases hcond : ((!code.any fun l => strContains l '=')
        && !st.last_ir.isEmpty) = true
    · rw [show handle_table st code cmd = tableRun st st.last_ir by
        simp [handle_table, htid, hcond]]
      exact tableRun_meta st st.last_ir
    · rw [show handle_table st code cmd = tableRun st code by
        simp [handle_table, htid, hcond]]
      exact tableRun_meta st code

theorem handle_eval_meta (st : Interp) :
    (handle_eval st).1.last_ir = st.last_ir
    ∧ (handle_eval st).1.saved_code = st.saved_code := by
  unfold handle_eval
  by_cases h : st.last_ir.isEmpty = true
  · rw [if_pos h]
    exact ⟨rfl, rfl⟩
  · rw [if_neg h]
    exact ⟨rfl, rfl⟩

theorem cacheUpdate_last_ir (st : Interp) (code : List String) :
    (cacheUpdate st code).last_ir
      = (if (classify code).1 = true then code else st.last_ir) := by
  by_cases hc : (classify code).1 = true <;> simp [cacheUpdate, hc]

theorem cacheUpdate_saved (st : Interp) (code : List String) :
    (cacheUpdate st code).saved_code
      = (if (classify code).1 = true then
          (classify code).2.foldl (fun m v => dSet m v code) st.saved_code
        else st.saved_code) := by
  by_cases hc : (classify code).1 = true <;> simp [cacheUpdate, hc]

theorem executeCore_meta (st : Interp) (code : List String) :
    (executeCore st code).1.last_ir = (cacheUpdate st code).last_ir
    ∧ (executeCore st code).1.saved_code = (cacheUpdate st code).saved_code := by
  cases hf : code.find? (fun l => strStartsWith l "TABLE" || strStartsWith l "EVAL") with
  | some l =>
    by_cases hl : strStartsWith l "TABLE" = true
    · rw [show executeCore st code = handle_table (cacheUpdate st code) code l by
        simp [executeCore, hf, hl]]
      exact handle_table_meta _ code l
    · rw [show executeCore st code = handle_eval (cacheUpdate st code) by
        simp [executeCore, hf, hl]]
      exact handle_eval_meta _
  | none =>
    cases hf2 : code.find? (fun l => strStartsWith l "INFER") with
    | some l =>
      rw [show executeCore st code
          = handle_infer
              { cacheUpdate st code with
                vars := (runCode (cacheUpdate st code).vars code []).globals } l by
        simp [executeCore, hf, hf2]]
      exact ⟨rfl, rfl⟩
    | none =>
      rw [show executeCore st code
          = ({ cacheUpdate st code with
                vars := (runCode (cacheUpdate st code).vars code []).globals },
              ([] : List String)) by
        simp [executeCore, hf, hf2]]
      exact ⟨rfl, rfl⟩

/-- C6: a block updates `last_ir` (and `saved_code`, at every non-temporary
assignment target with non-literal right-hand side) exactly when it is
"meaningful" in the spec's sense — some line uses a logic operator name,
assigns to a temporary, or is a plain assignment to a non-temporary name
whose right-hand side is not a bare `0`/`1`.  The well-formedness hypothesis
(every `t`-initial first token belongs to an assignment line) holds for
every block the IR generator can emit. -/
theorem meaningful_blocks_update_caches (st : Interp) (code : List String)
    (hwf : wfBlock code = true) :
    (classify code).1 = meaningfulSpec code
    ∧ (executeCore st code).1.last_ir
        = (if meaningfulSpec code = true then code else st.last_ir)
    ∧ (executeCore st code).1.saved_code
        = (if meaningfulSpec code = true then
            (code.filterMap namedTarget).foldl (fun m v => dSet m v code)
              st.saved_code
          else st.saved_code) := by
  have hcm := classify_eq_meaningful code hwf
  have hmeta := executeCore_meta st code
  have hsnd : (classify code).2 = code.filterMap namedTarget := by
    rw [show (classify code) = code.foldl classifyLine (false, []) from rfl,
      classify_snd]
    simp
  refine ⟨hcm, ?_, ?_⟩
  · rw [hmeta.1, cacheUpdate_last_ir, hcm]
  · rw [hmeta.2, cacheUpdate_saved, hcm, hsnd]

/-- C6 witness: the block of `set X = 1;` is not meaningful, so executing it
leaves `last_ir` and `saved_code` unchanged. -/
theorem meaningful_blocks_update_caches_witness :
    ((classify ["X = 1"]).1 = meaningfulSpec ["X = 1"]
      ∧ (executeCore demoState ["X = 1"]).1.last_ir
          = (if meaningfulSpec ["X = 1"] = true then ["X = 1"]
             else demoState.last_ir)
      ∧ (executeCore demoState ["X = 1"]).1.saved_code
          = (if meaningfulSpec ["X = 1"] = true then
              ((["X = 1"] : List String).filterMap namedTarget).foldl
                (fun m v => dSet m v ["X = 1"]) demoState.saved_code
            else demoState.saved_code))
    ∧ (executeCore demoState ["X = 1"]).1.last_ir = demoState.last_ir := by
  have h := meaningful_blocks_update_caches demoState ["X = 1"] (by decide)
  refine ⟨h, ?_⟩
  rw [h.2.1]
  simp [show meaningfulSpec ["X = 1"] = false from by decide]

/-- C9 amended: executing `TABLE <id>` with `<id>` (after `';'`-stripping)
absent from `saved_code` completes normally: no exception propagates to the
caller, the session state is unchanged, and the only observable effect is
the printed message `Error: Unknown rule or expression '<id>'`. -/
theorem table_unknown_target_prints_error (st : Interp) (id : String)
    (hsplit : pySplit ("TABLE " ++ id) = ["TABLE", id])
    (hop : isOp id = false)
    (hne : stripSemi id ≠ "LAST_EXPR")
    (hmiss : dGet st.saved_code (stripSemi id) = none) :
    execute st ["TABLE " ++ id]
      = .ok (st, ["Error: Unknown rule or expression '" ++ stripSemi id ++ "'"]) := by
  have hc : classify ["TABLE " ++ id] = (false, []) := by
    have h1 : isOp "TABLE" = false := by decide
    have h2 : strStartsWith "TABLE" "t" = false := by decide
    show classifyParts (false, []) (pySplit ("TABLE " ++ id)) = (false, [])
    rw [hsplit]
    simp [classifyParts, h1, h2, hop]
  have hht : handle_table st ["TABLE " ++ id] ("TABLE " ++ id)
      = (st, ["Error: Unknown rule or expression '" ++ stripSemi id ++ "'"]) := by
    simp [handle_table, tableTargetId, hsplit, hmiss, hne]
  simp [execute, executeCore, cacheUpdate, hc, hht, List.find?, strStartsWith_TABLE]

/-- C9 witness: the amended theorem applied at a concrete state and id. -/
theorem table_unknown_target_prints_error_witness :
    execute demoState ["TABLE " ++ "bar"]
      = .ok (demoState, ["Error: Unknown rule or expression 'bar'"]) := by
  have h := table_unknown_target_prints_error demoState "bar"
    (by decide) (by decide) (by decide) (by decide)
  simpa using h

end LogicEval
